import Mathlib

/-!
Verification development for the bothunter-vk-parser traversal engine.

The definitions below are a shallow embedding of the TypeScript sources
(`src/bothunter-vk-simple.ts` and the unnamed companion module).  Time is
modelled in ticks of the 500 ms polling interval, the browser page is
modelled by pure probe functions (identifier count per tick, pagination
button state per page and tick, rendered anchor lists), and JavaScript
strings are modelled as Lean `String`/`List Char`.  Machine-level concerns
(actual DOM, real clocks, `Math.random`'s float source) are abstracted as
explicit inputs.
-/

/-! ### String helpers modelling JavaScript string operations -/

/-- Bool-valued test that `pat` is an initial segment of `l` (character lists). -/
def startsWithCL : List Char → List Char → Bool
  | [], _ => true
  | _ :: _, [] => false
  | a :: as, b :: bs => a == b && startsWithCL as bs

/-- Bool-valued substring test on character lists; `containsCL pat l` holds iff
`pat` occurs contiguously inside `l`.  Models `String.prototype.includes`. -/
def containsCL (pat : List Char) : List Char → Bool
  | [] => startsWithCL pat []
  | c :: rest => startsWithCL pat (c :: rest) || containsCL pat rest

/-- Models `s.includes(sub)` from JavaScript. -/
def jsIncludes (s sub : String) : Bool :=
  containsCL sub.data s.data

/-- Models `String.prototype.toLowerCase` on one character, for the scripts this
repository actually handles: ASCII Latin `A`–`Z` and Cyrillic `А`–`Я` map down by
32 code points, `Ё` maps to `ё`, everything else is unchanged. -/
def jsLowerChar (c : Char) : Char :=
  if 65 ≤ c.toNat ∧ c.toNat ≤ 90 then Char.ofNat (c.toNat + 32)
  else if 0x410 ≤ c.toNat ∧ c.toNat ≤ 0x42F then Char.ofNat (c.toNat + 32)
  else if c.toNat = 0x401 then Char.ofNat 0x451
  else c

/-- Models `s.toLowerCase()` from JavaScript (Latin and Cyrillic letters). -/
def jsToLower (s : String) : String :=
  String.mk (s.data.map jsLowerChar)

/-! ### Target enumeration (`parseGroupsMode`, `parseNewSubsMode`, `parseListsMode`)

`parseGroupsMode` (part_000 lines 993–1020) and `parseNewSubsMode` (lines
1284–1311) walk the rendered anchors, extract a key `id` from the inline
`change_group_with_channel('...')` handler (the empty string models a failed
regex match, skipped by `if (!id || seen.has(id)) return`), and keep the first
anchor per key; their `seen` is a genuine `Set`.  `parseListsMode` (lines
1086–1113) keeps the first `(name, href)` pair per lowercased name, but its
`seen` is a plain object (`const seen: Record<string, boolean> = {}`) read with
`seen[key]`, and that lookup walks the prototype chain: keys naming a property
inherited from `Object.prototype` are truthy before anything is inserted, so
such names are treated as already seen at their first occurrence.  Both modes
are instances of the following seen-list filter, differing in the initial
contents of `seen`. -/

/-- One pass over the rendered items, skipping items with `skip` and keeping only
the first item per `key`, in document order; `seen` starts as the set of keys
that already test truthy (empty for a JS `Set`; the inherited
`Object.prototype` names for a plain-object `Record`) and accumulates the keys
emitted. -/
def dedupByKey {α : Type} (key : α → String) (skip : α → Bool) :
    List α → List String → List α
  | [], _ => []
  | a :: rest, seen =>
    if skip a = true ∨ key a ∈ seen then dedupByKey key skip rest seen
    else a :: dedupByKey key skip rest (key a :: seen)

/-- Group enumeration from `parseGroupsMode`/`parseNewSubsMode` (identical code in
both): each anchor is `(id, name)` where `id` is the key pulled from the inline
handler (`""` when the regex fails), deduplicated by `id`, first seen wins. -/
def enumGroups (anchors : List (String × String)) : List (String × String) :=
  dedupByKey Prod.fst (fun a => a.1 == "") anchors []

/-- The string-keyed properties inherited from `Object.prototype`: on a plain
`{}`, the lookup `seen[key]` yields a truthy value (a function, or for
`__proto__` the prototype object itself) exactly for these keys before any
insertion. -/
def objectProtoKeys : List String :=
  ["constructor", "hasOwnProperty", "isPrototypeOf", "propertyIsEnumerable",
   "toLocaleString", "toString", "valueOf", "__proto__",
   "__defineGetter__", "__defineSetter__", "__lookupGetter__", "__lookupSetter__"]

/-- List enumeration from `parseListsMode`: each item is `(name, href)` (only
pushed when both are non-empty, which we take as given in the input),
deduplicated by lowercased `name` through a plain-object `seen` whose lookup
walks the prototype chain — modelled by starting `seen` at the inherited
`Object.prototype` property names, so an item whose lowercased name is one of
them is dropped even at its first occurrence. -/
def enumListsDedup (items : List (String × String)) : List (String × String) :=
  dedupByKey (fun a => jsToLower a.1) (fun _ => false) items objectProtoKeys

/-- Default list-filter keywords from `parseListsMode` (part_000 line 1075). -/
def defaultKeywords : List String :=
  ["в работе", "отказ", "одобрен", "клик по офферу", "клик по оффер", "клик"]

/-- Segment-filter selection from `parseListsMode` (part_000 lines 1075–1123,
identical in bothunter-vk-simple.ts lines 531–579): lowercase the configured
keywords (or take the lowercase defaults), keep the lists whose lowercased name
contains some keyword, and fall back to the full list when nothing matches.
`listFilters = none` models an absent `config.listFilters`. -/
def selectTargetLists (listFilters : Option (List String))
    (allLists : List (String × String)) : List (String × String) :=
  let filters : List String :=
    match listFilters with
    | some fs => if fs.isEmpty then defaultKeywords else fs.map jsToLower
    | none => defaultKeywords
  let targetLists :=
    allLists.filter (fun l => filters.any (fun f => jsIncludes (jsToLower l.1) f))
  if targetLists.isEmpty then allLists else targetLists

/-! ### Readiness poller (`waitForAnyUsers`, part_000 lines 1172–1207)

Time advances one tick per `waitForTimeout(500)`; sample `t` happens at time
`t`.  `probe t = none` models `extractUserIds` (or the shortcut query) throwing
at tick `t`: the `catch {}` swallows it and the loop keeps the previous state.
`pag t` models whether `#followers-list-pagination, #followers-pagination`
resolves at tick `t`. -/

/-- The polling loop of `waitForAnyUsers`.  Arguments mirror the JS locals:
current tick `t`, `lastCount` (starts at `-1`), `lastChangeTs`, and `remaining =
maxWait - t` encodes the guard `Date.now() - start < maxWaitMs`.  Returns the
tick at which the call returns `true`, or `none` when it times out and returns
`false`. -/
def waLoop (minStable requireMin : Nat) (shortcutOn : Bool) (pag : Nat → Bool)
    (probe : Nat → Option Nat) :
    Nat → Int → Nat → Nat → Option Nat
  | _, _, _, 0 => none
  | t, lastCount, lastChangeTs, remaining + 1 =>
    if shortcutOn && pag t then some t
    else
      match probe t with
      | none =>
          waLoop minStable requireMin shortcutOn pag probe
            (t + 1) lastCount lastChangeTs remaining
      | some count =>
          let lastCount' : Int := if (count : Int) = lastCount then lastCount else (count : Int)
          let lastChangeTs' : Nat := if (count : Int) = lastCount then lastChangeTs else t
          if count ≥ requireMin ∧ t - lastChangeTs' ≥ minStable then some t
          else
            waLoop minStable requireMin shortcutOn pag probe
              (t + 1) lastCount' lastChangeTs' remaining

/-- `waitForAnyUsers`, reporting the tick of success: initial state is
`lastCount = -1`, `lastChangeTs = start`. -/
def waitForAnyUsersAt (maxWait minStable requireMin : Nat) (shortcutOn : Bool)
    (pag : Nat → Bool) (probe : Nat → Option Nat) : Option Nat :=
  waLoop minStable requireMin shortcutOn pag probe 0 (-1) 0 maxWait

/-- The Boolean result of `waitForAnyUsers`. -/
def waitForAnyUsers (maxWait minStable requireMin : Nat) (shortcutOn : Bool)
    (pag : Nat → Bool) (probe : Nat → Option Nat) : Bool :=
  (waitForAnyUsersAt maxWait minStable requireMin shortcutOn pag probe).isSome

/-- The probe sequence of the readiness-poller scenario; samples past the end
keep the final value 5. -/
def c1Probe (t : Nat) : Option Nat :=
  some ([0, 0, 3, 3, 3, 5, 5, 5, 5].getD t 5)

/-! ### Retry controller (`clickShowAndWaitWithRetries`, part_000 lines 1210–1231)

`ready k` models the outcome of the `waitForAnyUsers` readiness check on attempt
`k` (attempts are numbered from 1, as in the JS `for` loop); the click/trigger
itself is assumed to go through.  The result records `(returned value, number of
trigger/readiness attempts invoked, post-ready sleep performed)`. -/

/-- The retry loop; `remaining = retries + 1 - attempt` encodes the guard
`attempt <= retries`. -/
def retryLoop (ready : Nat → Bool) (postReadyDelayMs : Option Nat) :
    Nat → Nat → Bool × Nat × Option Nat
  | 0, attempt => (false, attempt - 1, none)
  | remaining + 1, attempt =>
    if ready attempt then (true, attempt, some (postReadyDelayMs.getD 500))
    else retryLoop ready postReadyDelayMs remaining (attempt + 1)

/-- `clickShowAndWaitWithRetries(retries, …, postReadyDelayMs)`: attempts run
from 1 to `retries`; on readiness success it sleeps `postReadyDelayMs ?? 500`
and returns `true`; after exhausting the attempts it returns `false`. -/
def clickShowAndWaitWithRetries (retries : Nat) (ready : Nat → Bool)
    (postReadyDelayMs : Option Nat) : Bool × Nat × Option Nat :=
  retryLoop ready postReadyDelayMs retries 1

/-! ### Advance control and pagination traversal
(`waitForNextPageButton` part_000 lines 858–892, `collectAllContactIds` lines
898–937) -/

/-- State of the "next page" control at one polling tick: no candidate matches
at all, a candidate exists but is disabled, or an enabled candidate exists. -/
inductive BtnState where
  | absent : BtnState
  | presentDisabled : BtnState
  | presentEnabled : BtnState
deriving DecidableEq

/-- The polling loop of `waitForNextPageButton`: sample `state t` once per
500 ms tick while `t < timeout`; an enabled candidate returns immediately (the
locator is represented by the tick it was found at), otherwise — present but
disabled, or entirely absent — the loop waits another tick.  Returns the
outcome and the number of samples taken. -/
def wfnAux (state : Nat → BtnState) : Nat → Nat → Option Nat × Nat
  | _, 0 => (none, 0)
  | t, remaining + 1 =>
    match state t with
    | .presentEnabled => (some t, 1)
    | _ =>
        let r := wfnAux state (t + 1) remaining
        (r.1, r.2 + 1)

/-- `waitForNextPageButton(timeoutMs)` with `timeout` in ticks: `some t` models
returning `enabled.first()` at tick `t`; `none` models returning `null` after
the timeout. -/
def waitForNextPageButton (timeout : Nat) (state : Nat → BtnState) :
    Option Nat × Nat :=
  wfnAux state 0 timeout

/-- `this.userIds.add(id)` on an insertion-ordered set modelled as a list. -/
def addId (acc : List String) (id : String) : List String :=
  if id ∈ acc then acc else acc ++ [id]

/-- `pageIds.forEach(id => this.userIds.add(id))`. -/
def addIds (acc : List String) (ids : List String) : List String :=
  ids.foldl addId acc

/-- `const maxPages = this.config.maxPages || 10000`: `none` models an unset
`config.maxPages` and `some 0` the falsy value 0; both fall back to 10000. -/
def effectiveMaxPages (cfgMaxPages : Option Nat) : Nat :=
  match cfgMaxPages with
  | some m => if m = 0 then 10000 else m
  | none => 10000

/-- The `while (currentPage <= maxPages)` loop of `collectAllContactIds`:
extract the ids of the current page into the accumulator, seek the advance
control with `waitForNextPageButton`; `none` breaks out of the loop, `some _`
clicks it and moves to the next page.  `remaining = maxPages + 1 - currentPage`
encodes the loop guard; `btn p` is the control state per tick while on page
`p`; the second component counts loop iterations executed. -/
def collectLoop (pages : Nat → List String) (btn : Nat → Nat → BtnState)
    (nextWait : Nat) :
    Nat → Nat → List String → Nat → List String × Nat
  | 0, _, acc, iters => (acc, iters)
  | remaining + 1, currentPage, acc, iters =>
    let acc2 := addIds acc (pages currentPage)
    match (wfnAux (btn currentPage) 0 nextWait).1 with
    | none => (acc2, iters + 1)
    | some _ => collectLoop pages btn nextWait remaining (currentPage + 1) acc2 (iters + 1)

/-- `collectAllContactIds` as called with the instance's current `userIds` set:
`this.userIds.clear()` empties the accumulator before any extraction, so
`prevUserIds` — whatever a prior traversal left in the set — is discarded, and
the loop starts from page 1 with an empty accumulator.  (The initial
`waitForAnyUsers(20000)` readiness wait and grace pause only delay; they touch
neither the accumulator nor the page counter and are omitted.) -/
def collectAllContactIdsFrom (prevUserIds : List String)
    (pages : Nat → List String) (btn : Nat → Nat → BtnState)
    (cfgMaxPages : Option Nat) (nextWait : Nat) : List String × Nat :=
  let _ := prevUserIds
  let maxPages := effectiveMaxPages cfgMaxPages
  collectLoop pages btn nextWait maxPages 1 [] 0

/-- `collectAllContactIds` from a fresh instance (empty prior set). -/
def collectAllContactIds (pages : Nat → List String) (btn : Nat → Nat → BtnState)
    (cfgMaxPages : Option Nat) (nextWait : Nat) : List String × Nat :=
  collectAllContactIdsFrom [] pages btn cfgMaxPages nextWait

/-! ### File naming (`slugify`, `formatTimestampForFilename`, `randomHash`,
`writeIdsFile`, part_000 lines 806–851) -/

/-- Whitespace for the purposes of JS `\s` and `trim()`, restricted to the
characters this code can meet: space, tab, LF, VT, FF, CR and NBSP. -/
def isWsChar (c : Char) : Bool :=
  c == ' ' || c == '\t' || c == '\n' || c.toNat == 11 || c.toNat == 12 ||
    c == '\r' || c.toNat == 160

/-- The combining diacritical marks range `[̀-ͯ]` stripped after NFKD
normalisation. -/
def isCombiningMark (c : Char) : Bool :=
  decide (0x300 ≤ c.toNat ∧ c.toNat ≤ 0x36F)

/-- Membership of the character class `[a-zA-Z0-9А-Яа-я_\-\s]` kept by
`slugify`'s second `replace`. -/
def isSlugKeep (c : Char) : Bool :=
  decide (97 ≤ c.toNat ∧ c.toNat ≤ 122) || decide (65 ≤ c.toNat ∧ c.toNat ≤ 90) ||
  decide (48 ≤ c.toNat ∧ c.toNat ≤ 57) ||
  decide (0x410 ≤ c.toNat ∧ c.toNat ≤ 0x42F) ||
  decide (0x430 ≤ c.toNat ∧ c.toNat ≤ 0x44F) ||
  c == '_' || c == '-' || isWsChar c

/-- A character allowed in the finished slug: in the kept class and not
whitespace, i.e. Latin/Cyrillic letters, digits, underscore, hyphen. -/
def isSlugSafe (c : Char) : Bool :=
  isSlugKeep c && !isWsChar c

/-- `String.prototype.trim()` on a character list. -/
def trimWsCL (l : List Char) : List Char :=
  ((l.dropWhile isWsChar).reverse.dropWhile isWsChar).reverse

/-- `.replace(/\s+/g, '_')`: every maximal run of whitespace becomes a single
underscore; `prevWs` remembers whether the previous character was part of the
current run. -/
def collapseWsAux : Bool → List Char → List Char
  | _, [] => []
  | prevWs, c :: rest =>
    if isWsChar c then
      if prevWs then collapseWsAux true rest
      else '_' :: collapseWsAux true rest
    else c :: collapseWsAux false rest

/-- The character pipeline of `slugify` after NFKD normalisation (the input is
taken to be already NFKD-normalised): strip combining marks, strip characters
outside the kept class, trim, collapse whitespace runs to `_`, cap at 40. -/
def slugifyCore (l : List Char) : List Char :=
  (collapseWsAux false
      (trimWsCL ((l.filter (fun c => !isCombiningMark c)).filter isSlugKeep))).take 40

/-- `slugify(v)`: `(v || 'item')` then the pipeline, then `|| 'item'` when the
result is empty. -/
def slugify (v : String) : String :=
  let base := if v = "" then "item" else v
  let r := slugifyCore base.data
  if r = [] then "item" else String.mk r

/-- `String(n).padStart(2, '0')`. -/
def pad2 (n : Nat) : String :=
  if n < 10 then "0" ++ toString n else toString n

/-- `formatTimestampForFilename`: `ddMMyyyyHHmmss` from the date components. -/
def formatTimestampForFilename (day month year hour minute second : Nat) : String :=
  pad2 day ++ pad2 month ++ toString year ++ pad2 hour ++ pad2 minute ++ pad2 second

/-- `randomHash(len) = Math.random().toString(36).slice(2, 2 + len)`, with the
base-36 rendering of the random draw (e.g. `"0.abc…"`) supplied as `rep`:
drop the leading `0.` and keep at most `len` characters. -/
def randomHash (rep : String) (len : Nat) : String :=
  String.mk ((rep.data.drop 2).take len)

/-- The file name built by `writeIdsFile` from the timestamp, random hash and
label. -/
def writeIdsFileName (ts hash label : String) : String :=
  "bothunter_ids_" ++ ts ++ "_" ++ slugify label ++ "_" ++ hash ++ ".txt"

/-! ### Result files (`saveResults`, part_000 lines 782–801 and
bothunter-vk-simple.ts lines 335–354) -/

/-- JavaScript `s.replace(pat, rep)` with a string pattern: replace the first
occurrence only, return `s` unchanged when `pat` does not occur. -/
def replFirstCL (pat rep : List Char) : List Char → List Char
  | [] => if pat = [] then rep else []
  | c :: rest =>
    if startsWithCL pat (c :: rest) then rep ++ (c :: rest).drop pat.length
    else c :: replFirstCL pat rep rest

/-- `s.replace(pat, rep)` on strings. -/
def jsReplaceFirst (s pat rep : String) : String :=
  String.mk (replFirstCL pat.data rep.data s.data)

/-- The two paths written by `saveResults`: the JSON results file
`config.outputFile || 'bothunter_results.json'` and the ids file derived from it
by `outputFile.replace('.json', '_ids.txt')`.  `none`/`some ""` model a falsy
`config.outputFile`. -/
def saveResultsPaths (outputFile : Option String) : String × String :=
  let f := match outputFile with
    | some s => if s = "" then "bothunter_results.json" else s
    | none => "bothunter_results.json"
  (f, jsReplaceFirst f ".json" "_ids.txt")

/-! ## Lemmas and claim theorems -/

/-- Small helper: a non-empty list has `isEmpty = false`. -/
theorem isEmptyFalseOfNe {α : Type} {l : List α} (h : l ≠ []) : l.isEmpty = false := by
  cases l with
  | nil => exact absurd rfl h
  | cons a t => rfl

/-- Every element emitted by `dedupByKey` has a key outside `seen` and is not
skipped. -/
theorem dedupByKey_not_seen {α : Type} (key : α → String) (skip : α → Bool)
    (l : List α) : ∀ (seen : List String), ∀ a ∈ dedupByKey key skip l seen,
      key a ∉ seen ∧ skip a = false := by
  induction l with
  | nil => intro seen a h; simp [dedupByKey] at h
  | cons b rest ih =>
    intro seen a h
    simp only [dedupByKey] at h
    by_cases hb : skip b = true ∨ key b ∈ seen
    · rw [if_pos hb] at h
      exact ih seen a h
    · rw [if_neg hb] at h
      simp only [not_or, Bool.not_eq_true] at hb
      rcases List.mem_cons.mp h with rfl | h'
      · exact ⟨hb.2, hb.1⟩
      · have h2 := ih (key b :: seen) a h'
        exact ⟨fun hs => h2.1 (List.mem_cons_of_mem _ hs), h2.2⟩

/-- The keys of the `dedupByKey` output are pairwise distinct. -/
theorem dedupByKey_nodup {α : Type} (key : α → String) (skip : α → Bool)
    (l : List α) : ∀ seen : List String,
      ((dedupByKey key skip l seen).map key).Nodup := by
  induction l with
  | nil => intro seen; simp [dedupByKey]
  | cons b rest ih =>
    intro seen
    by_cases hb : skip b = true ∨ key b ∈ seen
    · simp only [dedupByKey, if_pos hb]
      exact ih seen
    · simp only [dedupByKey, if_neg hb, List.map_cons, List.nodup_cons]
      refine ⟨?_, ih (key b :: seen)⟩
      intro hmem
      rcases List.mem_map.mp hmem with ⟨a, ha, hkey⟩
      have h2 := (dedupByKey_not_seen key skip rest (key b :: seen) a ha).1
      exact h2 (by rw [hkey]; exact List.mem_cons_self _ _)

/-- The `dedupByKey` output is a sublist of the input: document order is
preserved and every emitted item is an input item. -/
theorem dedupByKey_sublist {α : Type} (key : α → String) (skip : α → Bool)
    (l : List α) : ∀ seen, (dedupByKey key skip l seen).Sublist l := by
  induction l with
  | nil => intro seen; simp [dedupByKey]
  | cons b rest ih =>
    intro seen
    by_cases hb : skip b = true ∨ key b ∈ seen
    · simp only [dedupByKey, if_pos hb]
      exact (ih seen).cons b
    · simp only [dedupByKey, if_neg hb]
      exact (ih (key b :: seen)).cons₂ b

/-- Every emitted item is the first non-skipped input item carrying its key. -/
theorem dedupByKey_first {α : Type} (key : α → String) (skip : α → Bool)
    (l : List α) : ∀ seen, ∀ a ∈ dedupByKey key skip l seen,
      l.find? (fun r => !skip r && (key r == key a)) = some a := by
  induction l with
  | nil => intro seen a h; simp [dedupByKey] at h
  | cons b rest ih =>
    intro seen a h
    simp only [dedupByKey] at h
    by_cases hb : skip b = true ∨ key b ∈ seen
    · rw [if_pos hb] at h
      have hne : ¬(!skip b && (key b == key a)) = true := by
        rcases hb with hs | hseen
        · simp [hs]
        · have hka := (dedupByKey_not_seen key skip rest seen a h).1
          have hkk : key b ≠ key a := fun hkk => hka (hkk ▸ hseen)
          simp [hkk]
      rw [List.find?_cons_of_neg (p := fun r => !skip r && (key r == key a)) rest hne]
      exact ih seen a h
    · rw [if_neg hb] at h
      simp only [not_or, Bool.not_eq_true] at hb
      rcases List.mem_cons.mp h with rfl | h'
      · have hp : (!skip a && (key a == key a)) = true := by simp [hb.1]
        rw [List.find?_cons_of_pos (p := fun r => !skip r && (key r == key a)) rest hp]
      · have hka := (dedupByKey_not_seen key skip rest (key b :: seen) a h').1
        have hkb : key b ≠ key a := by
          intro hkk
          exact hka (by rw [← hkk]; exact List.mem_cons_self _ _)
        have hne : ¬(!skip b && (key b == key a)) = true := by simp [hkb]
        rw [List.find?_cons_of_neg (p := fun r => !skip r && (key r == key a)) rest hne]
        exact ih (key b :: seen) a h'

/-- Every non-skipped input item whose key is not yet seen is represented in the
output by some item with the same key. -/
theorem dedupByKey_complete {α : Type} (key : α → String) (skip : α → Bool)
    (l : List α) : ∀ seen, ∀ p ∈ l, skip p = false → key p ∉ seen →
      ∃ q ∈ dedupByKey key skip l seen, key q = key p := by
  induction l with
  | nil => intro seen p h; simp at h
  | cons b rest ih =>
    intro seen p hp hskip hseen
    by_cases hb : skip b = true ∨ key b ∈ seen
    · simp only [dedupByKey, if_pos hb]
      rcases List.mem_cons.mp hp with rfl | hp'
      · rcases hb with hs | hsn
        · rw [hskip] at hs; cases hs
        · exact absurd hsn hseen
      · exact ih seen p hp' hskip hseen
    · simp only [dedupByKey, if_neg hb]
      rcases List.mem_cons.mp hp with rfl | hp'
      · exact ⟨p, List.mem_cons_self _ _, rfl⟩
      · by_cases hk : key p = key b
        · exact ⟨b, List.mem_cons_self _ _, hk.symm⟩
        · have hnotin : key p ∉ key b :: seen := by
            intro hmem
            rcases List.mem_cons.mp hmem with h1 | h2
            · exact hk h1
            · exact hseen h2
          rcases ih (key b :: seen) p hp' hskip hnotin with ⟨q, hq, hqk⟩
          exact ⟨q, List.mem_cons_of_mem _ hq, hqk⟩

/-- C5 counterexample: `parseListsMode`'s `seen` is a plain object, so
`seen[key]` walks the prototype chain; a rendered list whose lowercased name is
an inherited `Object.prototype` property name — `"Constructor"` lowers to
`"constructor"` — is treated as already seen at its first occurrence and
dropped, so its key appears zero times in the enumeration output, not exactly
once. -/
theorem c5_counterexample :
    enumListsDedup [("Constructor", "h1"), ("Отказ", "h2")] = [("Отказ", "h2")]
    ∧ ¬∃ q ∈ enumListsDedup [("Constructor", "h1"), ("Отказ", "h2")],
        jsToLower q.1 = "constructor" := by
  decide

/-- C5 amended: group enumeration (`parseGroupsMode`/`parseNewSubsMode`, whose
`seen` is a genuine `Set`) contains each usable key exactly once, in first-seen
document order, exactly as claimed: output keys pairwise distinct, output a
sublist of the input, each emitted anchor the first carrying its key, every
anchor with a non-empty key represented.  List enumeration (`parseListsMode`)
deduplicates by lowercased name and preserves first-seen order — output keys
pairwise distinct, output a sublist of the input, each emitted item the first
input item with its lowercased name — but contains each key exactly once only
for names whose lowercased form is not a property name inherited from
`Object.prototype`; a name lowering to such a property name is dropped entirely
and appears zero times (since keys are lowercased first, the reachable cases
are the inherited names that are themselves lowercase: `constructor` and
`__proto__`). -/
theorem c5_amended :
    ∀ (anchors items : List (String × String)),
      ((enumGroups anchors).map Prod.fst).Nodup
      ∧ (enumGroups anchors).Sublist anchors
      ∧ (∀ q ∈ enumGroups anchors,
          anchors.find? (fun r => !(r.1 == "") && (r.1 == q.1)) = some q)
      ∧ (∀ p ∈ anchors, p.1 ≠ "" → ∃ q ∈ enumGroups anchors, q.1 = p.1)
      ∧ ((enumListsDedup items).map (fun it => jsToLower it.1)).Nodup
      ∧ (enumListsDedup items).Sublist items
      ∧ (∀ q ∈ enumListsDedup items,
          items.find? (fun r => jsToLower r.1 == jsToLower q.1) = some q
          ∧ jsToLower q.1 ∉ objectProtoKeys)
      ∧ (∀ p ∈ items, jsToLower p.1 ∉ objectProtoKeys →
          ∃ q ∈ enumListsDedup items, jsToLower q.1 = jsToLower p.1) := by
  intro anchors items
  refine ⟨dedupByKey_nodup _ _ anchors [], dedupByKey_sublist _ _ anchors [], ?_, ?_,
    dedupByKey_nodup _ _ items objectProtoKeys,
    dedupByKey_sublist _ _ items objectProtoKeys, ?_, ?_⟩
  · intro q hq
    exact dedupByKey_first Prod.fst (fun a => a.1 == "") anchors [] q hq
  · intro p hp hne
    exact dedupByKey_complete Prod.fst (fun a => a.1 == "") anchors [] p hp
      (by simpa using hne) (List.not_mem_nil _)
  · intro q hq
    refine ⟨dedupByKey_first (fun a : String × String => jsToLower a.1) (fun _ => false)
      items objectProtoKeys q hq, ?_⟩
    exact (dedupByKey_not_seen (fun a : String × String => jsToLower a.1) (fun _ => false)
      items objectProtoKeys q hq).1
  · intro p hp hproto
    exact dedupByKey_complete (fun a : String × String => jsToLower a.1) (fun _ => false)
      items objectProtoKeys p hp rfl hproto

/-- Witness for C5 (amended) at concrete duplicated inputs. -/
theorem c5_witness :
    (∃ q ∈ enumGroups [("a", "x"), ("a", "y"), ("b", "z")], q.1 = "a")
    ∧ (∃ q ∈ enumListsDedup [("Отказ", "h1"), ("ОТКАЗ", "h2")],
        jsToLower q.1 = jsToLower "Отказ") := by
  constructor
  · exact (c5_amended [("a", "x"), ("a", "y"), ("b", "z")] []).2.2.2.1
      ("a", "x") (by decide) (by decide)
  · exact (c5_amended [] [("Отказ", "h1"), ("ОТКАЗ", "h2")]).2.2.2.2.2.2.2
      ("Отказ", "h1") (by decide) (by decide)

/-- C6: list filtering in `parseListsMode` selects exactly the lists whose
lowercased name contains some lowercased configured keyword, and falls back to
the full unfiltered list when the selection is empty; concretely, over the
lists `В работе`, `Отказ`, `Случайное` the filter `отказ` selects exactly
`Отказ`, and the filter `нет такого` yields all three. -/
theorem c6_list_filter_selection :
    (∀ (fs : List String) (allLists : List (String × String)), fs ≠ [] →
      (allLists.filter
          (fun l => (fs.map jsToLower).any (fun f => jsIncludes (jsToLower l.1) f)) ≠ [] →
        selectTargetLists (some fs) allLists
          = allLists.filter
              (fun l => (fs.map jsToLower).any (fun f => jsIncludes (jsToLower l.1) f)))
      ∧ (allLists.filter
          (fun l => (fs.map jsToLower).any (fun f => jsIncludes (jsToLower l.1) f)) = [] →
        selectTargetLists (some fs) allLists = allLists))
    ∧ selectTargetLists (some ["отказ"]) [("В работе", "h1"), ("Отказ", "h2"), ("Случайное", "h3")]
        = [("Отказ", "h2")]
    ∧ selectTargetLists (some ["нет такого"])
        [("В работе", "h1"), ("Отказ", "h2"), ("Случайное", "h3")]
        = [("В работе", "h1"), ("Отказ", "h2"), ("Случайное", "h3")] := by
  refine ⟨?_, by decide, by decide⟩
  intro fs allLists hfs
  have hfsE : fs.isEmpty = false := isEmptyFalseOfNe hfs
  constructor
  · intro hne
    simp only [selectTargetLists, hfsE, Bool.false_eq_true, if_false,
      isEmptyFalseOfNe hne]
  · intro hemp
    simp only [selectTargetLists, hfsE, Bool.false_eq_true, if_false, hemp,
      List.isEmpty_nil, if_true]

/-- Witness for C6: an empty page yields the fallback (itself empty). -/
theorem c6_witness : selectTargetLists (some ["x"]) [] = [] :=
  (c6_list_filter_selection.1 ["x"] [] (by decide)).2 rfl

/-- C1 counterexample: with `minStableWindow = 3` ticks and the shortcut
disabled, the poller on `[0,0,3,3,3,5,5,5,5]` does NOT succeed at the 3rd
sample of `3` (index 4); it succeeds only at sample index 8, where the value 5
has been unchanged for 3 full ticks — the success condition is `now -
lastChangeTime >= minStableWindow`, and at the 3rd equal sample only 2 ticks
have elapsed since the change. -/
theorem c1_counterexample :
    waitForAnyUsersAt 9 3 1 false (fun _ => false) c1Probe = some 8
    ∧ waitForAnyUsersAt 9 3 1 false (fun _ => false) c1Probe ≠ some 4 := by
  decide

/-- C1 amended: sampling `[0,0,3,3,3,5,5,5,5]` once per tick with
`minAcceptableValue = 1` and the shortcut disabled, the poller succeeds exactly
at the first sample where at least `minStableWindow` ticks have elapsed since
the last value change, i.e. at the 4th consecutive equal acceptable sample when
`minStableWindow = 3` (sample index 8, the 4th `5`), and exactly at the 3rd `3`
(index 4) when `minStableWindow = 2`; on every sample whose value differs from
the previous one it resets `lastChangeTime` to the current tick, so a late
regression restarts the stability count (a probe `[3,3,3,0,3,…]` succeeds only
at index 7, while the constant probe `3` succeeds at index 3). -/
theorem c1_amended :
    waitForAnyUsersAt 9 3 1 false (fun _ => false) c1Probe = some 8
    ∧ waitForAnyUsersAt 9 2 1 false (fun _ => false) c1Probe = some 4
    ∧ waitForAnyUsersAt 9 3 1 false (fun _ => false) (fun _ => some 3) = some 3
    ∧ waitForAnyUsersAt 9 3 1 false (fun _ => false)
        (fun t => some ([3, 3, 3, 0, 3, 3, 3, 3].getD t 3)) = some 7
    ∧ (∀ (minStable requireMin : Nat) (pag : Nat → Bool) (probe : Nat → Option Nat)
        (t : Nat) (lastCount : Int) (lastChangeTs remaining : Nat) (v : Nat),
        probe t = some v → (v : Int) ≠ lastCount → 0 < minStable →
        waLoop minStable requireMin false pag probe t lastCount lastChangeTs (remaining + 1)
          = waLoop minStable requireMin false pag probe (t + 1) (v : Int) t remaining) := by
  refine ⟨by decide, by decide, by decide, by decide, ?_⟩
  intro minStable requireMin pag probe t lastCount lastChangeTs remaining v hpv hne hst
  simp only [waLoop, Bool.false_and, Bool.false_eq_true, if_false, hpv,
    if_neg hne]
  rw [if_neg ?hcond]
  case hcond =>
    intro hc
    omega

/-- Witness for C1 (amended): the reset equation at a concrete changed sample. -/
theorem c1_witness :
    waLoop 3 1 false (fun _ => false) (fun _ => some 2) 5 0 1 4
      = waLoop 3 1 false (fun _ => false) (fun _ => some 2) 6 2 5 3 :=
  c1_amended.2.2.2.2 3 1 (fun _ => false) (fun _ => some 2) 5 0 1 3 2 rfl
    (by decide) (by decide)

/-- Timing out with every sample thrown: the loop never succeeds and returns
`none` when `remaining` runs out. -/
theorem waLoop_all_thrown (minStable requireMin : Nat) (shortcutOn : Bool)
    (pag : Nat → Bool) (probe : Nat → Option Nat)
    (hs : ∀ t, (shortcutOn && pag t) = false) (hp : ∀ t, probe t = none) :
    ∀ (remaining t : Nat) (lastCount : Int) (lastChangeTs : Nat),
      waLoop minStable requireMin shortcutOn pag probe t lastCount lastChangeTs remaining
        = none := by
  intro remaining
  induction remaining with
  | zero => intro t lc lct; rfl
  | succ r ih =>
    intro t lc lct
    simp only [waLoop, hs t, Bool.false_eq_true, if_false, hp t]
    exact ih (t + 1) lc lct

/-- C8: a probe sample that throws is a non-fatal sample failure: the tick is
skipped with the poller state unchanged and polling continues; and when every
sample up to `maxWait` throws (and the shortcut never fires), `waitForAnyUsers`
returns `false` instead of propagating the exception. -/
theorem c8_probe_throw_nonfatal :
    (∀ (minStable requireMin : Nat) (shortcutOn : Bool) (pag : Nat → Bool)
        (probe : Nat → Option Nat) (t : Nat) (lastCount : Int)
        (lastChangeTs remaining : Nat),
        (shortcutOn && pag t) = false → probe t = none →
        waLoop minStable requireMin shortcutOn pag probe t lastCount lastChangeTs
            (remaining + 1)
          = waLoop minStable requireMin shortcutOn pag probe (t + 1) lastCount
              lastChangeTs remaining)
    ∧ (∀ (maxWait minStable requireMin : Nat) (shortcutOn : Bool) (pag : Nat → Bool)
        (probe : Nat → Option Nat),
        (∀ t, (shortcutOn && pag t) = false) → (∀ t, probe t = none) →
        waitForAnyUsers maxWait minStable requireMin shortcutOn pag probe = false) := by
  constructor
  · intro minStable requireMin shortcutOn pag probe t lc lct r hs hp
    simp only [waLoop, hs, Bool.false_eq_true, if_false, hp]
  · intro maxWait minStable requireMin shortcutOn pag probe hs hp
    unfold waitForAnyUsers waitForAnyUsersAt
    rw [waLoop_all_thrown minStable requireMin shortcutOn pag probe hs hp]
    rfl

/-- Witness for C8 at a concrete always-throwing probe. -/
theorem c8_witness :
    waLoop 2 1 false (fun _ => false) (fun _ => none) 0 (-1) 0 5
      = waLoop 2 1 false (fun _ => false) (fun _ => none) 1 (-1) 0 4
    ∧ waitForAnyUsers 7 2 1 false (fun _ => false) (fun _ => none) = false := by
  constructor
  · exact c8_probe_throw_nonfatal.1 2 1 false (fun _ => false) (fun _ => none)
      0 (-1) 0 4 rfl rfl
  · exact c8_probe_throw_nonfatal.2 7 2 1 false (fun _ => false) (fun _ => none)
      (fun t => rfl) (fun t => rfl)

/-- When every attempt in the window fails, the retry loop exhausts the window
and returns failure, having invoked every attempt once. -/
theorem retryLoop_fail (ready : Nat → Bool) (pd : Option Nat) :
    ∀ (r a : Nat), (∀ k, a ≤ k → k < a + r → ready k = false) →
      retryLoop ready pd r a = (false, a + r - 1, none) := by
  intro r
  induction r with
  | zero => intro a h; rfl
  | succ r ih =>
    intro a h
    have ha : ready a = false := h a (Nat.le_refl a) (by omega)
    simp only [retryLoop, ha, Bool.false_eq_true, if_false]
    rw [ih (a + 1) (fun k hk1 hk2 => h k (by omega) (by omega))]
    have he : a + 1 + r - 1 = a + (r + 1) - 1 := by omega
    rw [he]

/-- When attempt `k` inside the window is the first to succeed, the retry loop
returns success at attempt `k`, sleeping the post-ready delay. -/
theorem retryLoop_success (ready : Nat → Bool) (pd : Option Nat) :
    ∀ (r a k : Nat), a ≤ k → k < a + r → ready k = true →
      (∀ j, a ≤ j → j < k → ready j = false) →
      retryLoop ready pd r a = (true, k, some (pd.getD 500)) := by
  intro r
  induction r with
  | zero => intro a k h1 h2; exact absurd h2 (by omega)
  | succ r ih =>
    intro a k h1 h2 hk hprev
    by_cases hak : a = k
    · subst hak
      simp only [retryLoop, hk, if_true]
    · have ha : ready a = false := hprev a (Nat.le_refl a) (by omega)
      simp only [retryLoop, ha, Bool.false_eq_true, if_false]
      exact ih (a + 1) k (by omega) (by omega) hk (fun j hj1 hj2 => hprev j (by omega) hj2)

/-- C4: the retry controller returns `false` — not an unhandled error — after
exactly `retries` failed readiness checks, invoking the trigger/readiness pair
exactly `retries` times; if the readiness check first succeeds on attempt
`k ≤ retries`, it sleeps the post-ready delay (`postReadyDelayMs ?? 500`, so
500 ms when none is passed) and returns `true` without invoking attempt
`k + 1`. -/
theorem c4_retry_controller :
    ∀ (retries : Nat) (ready : Nat → Bool) (postReadyDelayMs : Option Nat),
      ((∀ k, 1 ≤ k → k ≤ retries → ready k = false) →
        clickShowAndWaitWithRetries retries ready postReadyDelayMs
          = (false, retries, none))
      ∧ (∀ k, 1 ≤ k → k ≤ retries → ready k = true →
          (∀ j, 1 ≤ j → j < k → ready j = false) →
          clickShowAndWaitWithRetries retries ready postReadyDelayMs
            = (true, k, some (postReadyDelayMs.getD 500)))
      ∧ (∀ k, 1 ≤ k → k ≤ retries → ready k = true →
          (∀ j, 1 ≤ j → j < k → ready j = false) →
          clickShowAndWaitWithRetries retries ready none = (true, k, some 500)) := by
  intro retries ready pd
  refine ⟨?_, ?_, ?_⟩
  · intro h
    unfold clickShowAndWaitWithRetries
    rw [retryLoop_fail ready pd retries 1 (fun k hk1 hk2 => h k hk1 (by omega))]
    have he : 1 + retries - 1 = retries := by omega
    rw [he]
  · intro k hk1 hk2 hk hprev
    unfold clickShowAndWaitWithRetries
    exact retryLoop_success ready pd retries 1 k hk1 (by omega) hk hprev
  · intro k hk1 hk2 hk hprev
    unfold clickShowAndWaitWithRetries
    exact retryLoop_success ready none retries 1 k hk1 (by omega) hk hprev

/-- Witness for C4: success on attempt 2 of 3 with the default delay, and
failure after all 3 attempts. -/
theorem c4_witness :
    clickShowAndWaitWithRetries 3 (fun k => k == 2) none = (true, 2, some 500)
    ∧ clickShowAndWaitWithRetries 3 (fun _ => false) (some 200) = (false, 3, none) := by
  constructor
  · exact (c4_retry_controller 3 (fun k => k == 2) none).2.1 2 (by decide) (by decide)
      (by decide) (by decide)
  · exact (c4_retry_controller 3 (fun _ => false) (some 200)).1
      (fun k hk1 hk2 => rfl)

/-- While no sample in the window shows an enabled control, the advance-seek
loop polls every tick of the window and reports no button. -/
theorem wfnAux_none (state : Nat → BtnState) :
    ∀ (r t : Nat), (∀ s, t ≤ s → s < t + r → state s ≠ BtnState.presentEnabled) →
      wfnAux state t r = (none, r) := by
  intro r
  induction r with
  | zero => intro t h; rfl
  | succ r ih =>
    intro t h
    have ht : state t ≠ BtnState.presentEnabled := h t (Nat.le_refl t) (by omega)
    have hrec : wfnAux state (t + 1) r = (none, r) :=
      ih (t + 1) (fun s hs1 hs2 => h s (by omega) (by omega))
    cases hs : state t with
    | absent => simp only [wfnAux, hs, hrec]
    | presentDisabled => simp only [wfnAux, hs, hrec]
    | presentEnabled => exact absurd hs ht

/-- The first enabled sample in the window stops the advance-seek loop at that
tick. -/
theorem wfnAux_first_enabled (state : Nat → BtnState) :
    ∀ (r t t0 : Nat), t ≤ t0 → t0 < t + r → state t0 = BtnState.presentEnabled →
      (∀ s, t ≤ s → s < t0 → state s ≠ BtnState.presentEnabled) →
      wfnAux state t r = (some t0, t0 - t + 1) := by
  intro r
  induction r with
  | zero => intro t t0 h1 h2; exact absurd h2 (by omega)
  | succ r ih =>
    intro t t0 h1 h2 ht0 hprev
    by_cases htt : t = t0
    · subst htt
      simp only [wfnAux, ht0]
      rw [Nat.sub_self]
    · have ht : state t ≠ BtnState.presentEnabled := hprev t (Nat.le_refl t) (by omega)
      have hrec : wfnAux state (t + 1) r = (some t0, t0 - (t + 1) + 1) :=
        ih (t + 1) t0 (by omega) (by omega) ht0
          (fun s hs1 hs2 => hprev s (by omega) hs2)
      have he : t0 - (t + 1) + 1 + 1 = t0 - t + 1 := by omega
      cases hs : state t with
      | absent => simp only [wfnAux, hs, hrec]; rw [he]
      | presentDisabled => simp only [wfnAux, hs, hrec]; rw [he]
      | presentEnabled => exact absurd hs ht

/-- C7: advance-seek outcomes.  A control that becomes present and enabled at
tick `t0` within the bounded wait makes `waitForNextPageButton` return the
enabled button (modelled as `some t0`) — the traversal advances; a control
present but disabled on every tick keeps being polled on every one of the
`timeout` ticks and yields `none`; a control entirely absent throughout also
yields `none` after the bounded wait, and the traversal loop then ends at the
current page (Done), returning the accumulated set. -/
theorem c7_advance_seek_outcomes :
    (∀ (state : Nat → BtnState) (timeout t0 : Nat), t0 < timeout →
        state t0 = BtnState.presentEnabled →
        (∀ s, s < t0 → state s ≠ BtnState.presentEnabled) →
        waitForNextPageButton timeout state = (some t0, t0 + 1))
    ∧ (∀ (state : Nat → BtnState) (timeout : Nat),
        (∀ t, t < timeout → state t = BtnState.presentDisabled) →
        waitForNextPageButton timeout state = (none, timeout))
    ∧ (∀ (state : Nat → BtnState) (timeout : Nat),
        (∀ t, t < timeout → state t = BtnState.absent) →
        waitForNextPageButton timeout state = (none, timeout))
    ∧ (∀ (pages : Nat → List String) (btn : Nat → Nat → BtnState)
        (nextWait remaining currentPage : Nat) (acc : List String) (iters : Nat),
        (wfnAux (btn currentPage) 0 nextWait).1 = none →
        collectLoop pages btn nextWait (remaining + 1) currentPage acc iters
          = (addIds acc (pages currentPage), iters + 1)) := by
  refine ⟨?_, ?_, ?_, ?_⟩
  · intro state timeout t0 h1 h2 h3
    unfold waitForNextPageButton
    have := wfnAux_first_enabled state timeout 0 t0 (Nat.zero_le _) (by omega) h2
      (fun s hs1 hs2 => h3 s hs2)
    rw [this, Nat.sub_zero]
  · intro state timeout h
    unfold waitForNextPageButton
    exact wfnAux_none state timeout 0
      (fun s hs1 hs2 => by rw [h s (by omega)]; intro hc; cases hc)
  · intro state timeout h
    unfold waitForNextPageButton
    exact wfnAux_none state timeout 0
      (fun s hs1 hs2 => by rw [h s (by omega)]; intro hc; cases hc)
  · intro pages btn nextWait remaining currentPage acc iters h
    simp only [collectLoop, h]

/-- Witness for C7: a control disabled for two ticks then enabled, a control
disabled throughout, a control absent throughout, and the resulting Done step. -/
theorem c7_witness :
    waitForNextPageButton 5
        (fun t => if t < 2 then BtnState.presentDisabled else BtnState.presentEnabled)
      = (some 2, 3)
    ∧ waitForNextPageButton 5 (fun _ => BtnState.presentDisabled) = (none, 5)
    ∧ waitForNextPageButton 5 (fun _ => BtnState.absent) = (none, 5)
    ∧ collectLoop (fun _ => ["9"]) (fun _ _ => BtnState.absent) 5 3 1 [] 0
      = (addIds [] ["9"], 1) := by
  refine ⟨?_, ?_, ?_, ?_⟩
  · exact c7_advance_seek_outcomes.1
      (fun t => if t < 2 then BtnState.presentDisabled else BtnState.presentEnabled)
      5 2 (by decide) (by decide) (by decide)
  · exact c7_advance_seek_outcomes.2.1 (fun _ => BtnState.presentDisabled) 5
      (fun t ht => rfl)
  · exact c7_advance_seek_outcomes.2.2.1 (fun _ => BtnState.absent) 5
      (fun t ht => rfl)
  · exact c7_advance_seek_outcomes.2.2.2 (fun _ => ["9"]) (fun _ _ => BtnState.absent)
      5 2 1 [] 0 (by decide)

/-- The traversal loop executes at most `remaining` more iterations. -/
theorem collectLoop_iters_le (pages : Nat → List String) (btn : Nat → Nat → BtnState)
    (nextWait : Nat) : ∀ (r currentPage : Nat) (acc : List String) (iters : Nat),
      (collectLoop pages btn nextWait r currentPage acc iters).2 ≤ iters + r := by
  intro r
  induction r with
  | zero => intro cp acc it; exact Nat.le_refl it
  | succ r ih =>
    intro cp acc it
    cases h : (wfnAux (btn cp) 0 nextWait).1 with
    | none => simp only [collectLoop, h]; omega
    | some x =>
      simp only [collectLoop, h]
      have := ih (cp + 1) (addIds acc (pages cp)) (it + 1)
      omega

/-- With an always-enabled advance control and a positive seek window, the
traversal loop runs its full window of iterations. -/
theorem collectLoop_iters_eq_of_enabled (pages : Nat → List String)
    (btn : Nat → Nat → BtnState) (nextWait : Nat)
    (hb : ∀ p t, btn p t = BtnState.presentEnabled) (hw : 0 < nextWait) :
    ∀ (r currentPage : Nat) (acc : List String) (iters : Nat),
      (collectLoop pages btn nextWait r currentPage acc iters).2 = iters + r := by
  intro r
  induction r with
  | zero => intro cp acc it; rfl
  | succ r ih =>
    intro cp acc it
    have hnext : (wfnAux (btn cp) 0 nextWait).1 = some 0 := by
      cases nextWait with
      | zero => omega
      | succ w => simp only [wfnAux, hb cp 0]
    simp only [collectLoop, hnext]
    rw [ih (cp + 1) (addIds acc (pages cp)) (it + 1)]
    omega

/-- C2: for every ceiling configuration (`config.maxPages`, defaulting to 10000
when unset or 0), the effective ceiling `m` is at least 1 and
`collectAllContactIds` executes at most `m + 1` loop iterations — even when the
advance-control probe reports present-and-enabled on every poll, in which case
it executes exactly `m` iterations — and then returns. -/
theorem c2_pagination_ceiling :
    ∀ (pages : Nat → List String) (btn : Nat → Nat → BtnState)
      (cfgMaxPages : Option Nat) (nextWait : Nat),
      1 ≤ effectiveMaxPages cfgMaxPages
      ∧ (collectAllContactIds pages btn cfgMaxPages nextWait).2
          ≤ effectiveMaxPages cfgMaxPages + 1
      ∧ ((∀ p t, btn p t = BtnState.presentEnabled) → 0 < nextWait →
          (collectAllContactIds pages btn cfgMaxPages nextWait).2
            = effectiveMaxPages cfgMaxPages) := by
  intro pages btn cfg nextWait
  have h1 : 1 ≤ effectiveMaxPages cfg := by
    cases cfg with
    | none => decide
    | some m =>
      simp only [effectiveMaxPages]
      split
      · decide
      · omega
  refine ⟨h1, ?_, ?_⟩
  · have := collectLoop_iters_le pages btn nextWait (effectiveMaxPages cfg) 1 [] 0
    simp only [collectAllContactIds, collectAllContactIdsFrom]
    omega
  · intro hb hw
    simp only [collectAllContactIds, collectAllContactIdsFrom]
    rw [collectLoop_iters_eq_of_enabled pages btn nextWait hb hw (effectiveMaxPages cfg) 1 [] 0]
    omega

/-- Witness for C2: an always-enabled control with ceiling 3 runs exactly 3
iterations. -/
theorem c2_witness :
    (collectAllContactIds (fun _ => []) (fun _ _ => BtnState.presentEnabled) (some 3) 2).2
      = effectiveMaxPages (some 3) :=
  (c2_pagination_ceiling (fun _ => []) (fun _ _ => BtnState.presentEnabled) (some 3) 2).2.2
    (fun _ _ => rfl) (by decide)

/-- Everything in the accumulator after `addIds` was already there or came from
the added page. -/
theorem mem_addIds : ∀ (ids acc : List String) (x : String),
    x ∈ addIds acc ids → x ∈ acc ∨ x ∈ ids := by
  intro ids
  induction ids with
  | nil => intro acc x h; exact Or.inl h
  | cons i rest ih =>
    intro acc x h
    simp only [addIds, List.foldl_cons] at h
    rcases ih (addId acc i) x h with h1 | h2
    · simp only [addId] at h1
      by_cases hi : i ∈ acc
      · rw [if_pos hi] at h1
        exact Or.inl h1
      · rw [if_neg hi] at h1
        rcases List.mem_append.mp h1 with ha | hb
        · exact Or.inl ha
        · simp only [List.mem_singleton] at hb
          exact Or.inr (hb ▸ List.mem_cons_self _ _)
    · exact Or.inr (List.mem_cons_of_mem _ h2)

/-- Everything in the traversal result was already in the accumulator or was
extracted from one of the pages visited from `currentPage` on. -/
theorem collectLoop_mem (pages : Nat → List String) (btn : Nat → Nat → BtnState)
    (nextWait : Nat) : ∀ (r currentPage : Nat) (acc : List String) (iters : Nat)
      (x : String), x ∈ (collectLoop pages btn nextWait r currentPage acc iters).1 →
      x ∈ acc ∨ ∃ p, currentPage ≤ p ∧ p < currentPage + r ∧ x ∈ pages p := by
  intro r
  induction r with
  | zero => intro cp acc it x h; exact Or.inl h
  | succ r ih =>
    intro cp acc it x h
    cases hn : (wfnAux (btn cp) 0 nextWait).1 with
    | none =>
      simp only [collectLoop, hn] at h
      rcases mem_addIds (pages cp) acc x h with h1 | h2
      · exact Or.inl h1
      · exact Or.inr ⟨cp, Nat.le_refl cp, by omega, h2⟩
    | some y =>
      simp only [collectLoop, hn] at h
      rcases ih (cp + 1) (addIds acc (pages cp)) (it + 1) x h with h1 | h2
      · rcases mem_addIds (pages cp) acc x h1 with ha | hb
        · exact Or.inl ha
        · exact Or.inr ⟨cp, Nat.le_refl cp, by omega, hb⟩
      · rcases h2 with ⟨p, hp1, hp2, hp3⟩
        exact Or.inr ⟨p, by omega, by omega, hp3⟩

/-- C3: `collectAllContactIds` clears the accumulator (`this.userIds.clear()`)
before extracting anything, so its result does not depend on whatever a prior
target traversal left in `userIds`, and every identifier in the returned set
was extracted from a page visited during this call (pages 1 through the
effective ceiling); a prior target's identifiers never leak into the next
target's output. -/
theorem c3_accumulator_isolation :
    ∀ (prevUserIds : List String) (pages : Nat → List String)
      (btn : Nat → Nat → BtnState) (cfgMaxPages : Option Nat) (nextWait : Nat),
      collectAllContactIdsFrom prevUserIds pages btn cfgMaxPages nextWait
        = collectAllContactIds pages btn cfgMaxPages nextWait
      ∧ (∀ x ∈ (collectAllContactIdsFrom prevUserIds pages btn cfgMaxPages nextWait).1,
          ∃ p, 1 ≤ p ∧ p ≤ effectiveMaxPages cfgMaxPages ∧ x ∈ pages p) := by
  intro prev pages btn cfg nextWait
  refine ⟨rfl, ?_⟩
  intro x hx
  have hx2 : x ∈ (collectLoop pages btn nextWait (effectiveMaxPages cfg) 1 [] 0).1 := hx
  rcases collectLoop_mem pages btn nextWait (effectiveMaxPages cfg) 1 [] 0 x hx2 with h1 | h2
  · exact absurd h1 (List.not_mem_nil x)
  · rcases h2 with ⟨p, hp1, hp2, hp3⟩
    exact ⟨p, hp1, by omega, hp3⟩

/-- Witness for C3: a polluted prior accumulator does not reach the result, and
the single extracted identifier is traced back to its page. -/
theorem c3_witness :
    collectAllContactIdsFrom ["stale"] (fun _ => ["7"]) (fun _ _ => BtnState.absent)
        (some 1) 1
      = collectAllContactIds (fun _ => ["7"]) (fun _ _ => BtnState.absent) (some 1) 1
    ∧ (∃ p, 1 ≤ p ∧ p ≤ effectiveMaxPages (some 1) ∧ "7" ∈ (fun (_ : Nat) => ["7"]) p) := by
  constructor
  · exact (c3_accumulator_isolation ["stale"] (fun _ => ["7"]) (fun _ _ => BtnState.absent)
      (some 1) 1).1
  · exact (c3_accumulator_isolation ["stale"] (fun _ => ["7"]) (fun _ _ => BtnState.absent)
      (some 1) 1).2 "7" (by decide)

/-- String extensionality via the underlying character list. -/
theorem strExt : ∀ {a b : String}, a.data = b.data → a = b
  | ⟨_⟩, ⟨_⟩, rfl => rfl

/-- Unfolding `String.append` to list append. -/
theorem strDataAppend (a b : String) : (a ++ b).data = a.data ++ b.data := rfl

/-- Unfolding `String.mk`. -/
theorem strDataMk (l : List Char) : (String.mk l).data = l := rfl

/-- Dropping a whitespace run keeps only original characters. -/
theorem mem_dropWhileWs : ∀ (l : List Char) (c : Char),
    c ∈ l.dropWhile isWsChar → c ∈ l := by
  intro l
  induction l with
  | nil => intro c h; exact h
  | cons a t ih =>
    intro c h
    rw [List.dropWhile_cons] at h
    by_cases ha : isWsChar a = true
    · rw [if_pos ha] at h
      exact List.mem_cons_of_mem _ (ih c h)
    · rw [if_neg ha] at h
      exact h

/-- Trimming keeps only original characters. -/
theorem mem_trimWs (l : List Char) (c : Char) (h : c ∈ trimWsCL l) : c ∈ l := by
  unfold trimWsCL at h
  rw [List.mem_reverse] at h
  have h1 := mem_dropWhileWs _ c h
  rw [List.mem_reverse] at h1
  exact mem_dropWhileWs _ c h1

/-- Every character produced by whitespace collapsing is either the underscore
replacing a run or a non-whitespace character of the input. -/
theorem mem_collapseWs : ∀ (l : List Char) (b : Bool) (c : Char),
    c ∈ collapseWsAux b l → c = '_' ∨ (c ∈ l ∧ isWsChar c = false) := by
  intro l
  induction l with
  | nil => intro b c h; exact absurd h (List.not_mem_nil c)
  | cons a t ih =>
    intro b c h
    simp only [collapseWsAux] at h
    by_cases ha : isWsChar a = true
    · rw [if_pos ha] at h
      by_cases hb : b = true
      · rw [if_pos hb] at h
        rcases ih true c h with h1 | h2
        · exact Or.inl h1
        · exact Or.inr ⟨List.mem_cons_of_mem _ h2.1, h2.2⟩
      · rw [if_neg hb] at h
        rcases List.mem_cons.mp h with rfl | h'
        · exact Or.inl rfl
        · rcases ih true c h' with h1 | h2
          · exact Or.inl h1
          · exact Or.inr ⟨List.mem_cons_of_mem _ h2.1, h2.2⟩
    · rw [if_neg ha] at h
      rcases List.mem_cons.mp h with rfl | h'
      · exact Or.inr ⟨List.mem_cons_self _ _, by simpa using ha⟩
      · rcases ih false c h' with h1 | h2
        · exact Or.inl h1
        · exact Or.inr ⟨List.mem_cons_of_mem _ h2.1, h2.2⟩

/-- The slug pipeline caps its output at 40 characters. -/
theorem slugifyCore_length (l : List Char) : (slugifyCore l).length ≤ 40 := by
  simp only [slugifyCore]
  rw [List.length_take]
  exact min_le_left _ _

/-- Unfolding `slugify` to its branches. -/
theorem slugify_eq (v : String) :
    slugify v
      = if slugifyCore (if v = "" then "item" else v).data = [] then "item"
        else String.mk (slugifyCore (if v = "" then "item" else v).data) := rfl

/-- `slugify` never returns the empty string. -/
theorem slugify_ne_empty (v : String) : slugify v ≠ "" := by
  rw [slugify_eq]
  generalize (if v = "" then "item" else v).data = b
  split
  · decide
  · next hne =>
    intro hc
    exact hne (congrArg String.data hc)

/-- `slugify` caps its output at 40 characters. -/
theorem slugify_length (v : String) : (slugify v).length ≤ 40 := by
  rw [slugify_eq]
  generalize (if v = "" then "item" else v).data = b
  split
  · decide
  · exact slugifyCore_length b

/-- Every character of a slug is a Latin/Cyrillic letter, digit, underscore or
hyphen — in particular never whitespace. -/
theorem slugify_safe (v : String) : ∀ c ∈ (slugify v).data, isSlugSafe c = true := by
  intro c
  rw [slugify_eq]
  generalize (if v = "" then "item" else v).data = b
  intro hc
  split at hc
  · have hitem : ∀ x ∈ ("item" : String).data, isSlugSafe x = true := by decide
    exact hitem c hc
  · rw [strDataMk] at hc
    simp only [slugifyCore] at hc
    have hc3 := List.take_subset _ _ hc
    rcases mem_collapseWs _ false c hc3 with h1 | h2
    · rw [h1]; decide
    · have h4 := mem_trimWs _ c h2.1
      have h5 := (List.mem_filter.mp h4).2
      simp [isSlugSafe, h5, h2.2]

/-- Two `writeIdsFile` names with the same label and equal-length timestamps
coincide exactly when both the timestamp and the random hash coincide. -/
theorem writeIdsFileName_inj (label ts1 ts2 hs1 hs2 : String)
    (hlen : ts1.length = ts2.length) :
    writeIdsFileName ts1 hs1 label = writeIdsFileName ts2 hs2 label
      ↔ ts1 = ts2 ∧ hs1 = hs2 := by
  constructor
  · intro h
    have hd := congrArg String.data h
    simp only [writeIdsFileName, strDataAppend, List.append_assoc] at hd
    have hd2 := List.append_cancel_left hd
    rcases List.append_inj hd2 hlen with ⟨hts1, hrest⟩
    have hrest2 := List.append_cancel_left hrest
    have hrest3 := List.append_cancel_left hrest2
    have hrest4 := List.append_cancel_left hrest3
    have hh := List.append_cancel_right hrest4
    exact ⟨strExt hts1, strExt hh⟩
  · rintro ⟨rfl, rfl⟩
    rfl

/-- C9 counterexample: `randomHash` is `Math.random().toString(36).slice(2, 8)`
and `Math.random()` can return 0.5, whose base-36 rendering is `"0.i"`; the
resulting suffix is 1 character, not 6, so the produced name is not of the
claimed `…_<6-character random suffix>.txt` form (and names are only as
distinct as the timestamp/suffix pair, so "never overwrite" is not absolute). -/
theorem c9_counterexample :
    (randomHash "0.i" 6).length = 1
    ∧ (randomHash "0.i" 6).length ≠ 6
    ∧ writeIdsFileName "06112025225301" (randomHash "0.i" 6) "group PtichkaNalichka"
        = "bothunter_ids_06112025225301_group_PtichkaNalichka_i.txt" := by
  decide

/-- C9 amended: for every label the slug is filesystem-safe — non-empty, at most
40 characters, each character a Latin/Cyrillic letter, digit, underscore or
hyphen, with whitespace runs collapsed to single underscores as in the concrete
example — and every `writeIdsFile` call produces
`bothunter_ids_<ddMMyyyyHHmmss>_<slug>_<suffix>.txt` where the suffix is the
base-36 fraction of the random draw capped at 6 characters (exactly 6 whenever
the rendering has at least 8 characters); two names with the same label and
equal-length timestamps coincide exactly when timestamp and suffix both
coincide, so collisions — and thus overwrites — require a same-second run with
an identical random suffix. -/
theorem c9_amended :
    (∀ v : String, slugify v ≠ "" ∧ (slugify v).length ≤ 40
      ∧ ∀ c ∈ (slugify v).data, isSlugSafe c = true)
    ∧ slugify "  Птичка   Наличка  !!" = "Птичка_Наличка"
    ∧ formatTimestampForFilename 6 11 2025 22 53 1 = "06112025225301"
    ∧ writeIdsFileName "06112025225301" "ab12cd" "group PtichkaNalichka"
        = "bothunter_ids_06112025225301_group_PtichkaNalichka_ab12cd.txt"
    ∧ (∀ rep : String, (randomHash rep 6).length ≤ 6
        ∧ (8 ≤ rep.length → (randomHash rep 6).length = 6))
    ∧ (∀ label ts1 ts2 hs1 hs2 : String, ts1.length = ts2.length →
        (writeIdsFileName ts1 hs1 label = writeIdsFileName ts2 hs2 label
          ↔ ts1 = ts2 ∧ hs1 = hs2)) := by
  refine ⟨?_, by decide, by decide, by decide, ?_, ?_⟩
  · intro v
    exact ⟨slugify_ne_empty v, slugify_length v, slugify_safe v⟩
  · intro rep
    constructor
    · show ((rep.data.drop 2).take 6).length ≤ 6
      rw [List.length_take]
      exact min_le_left _ _
    · intro h8
      show ((rep.data.drop 2).take 6).length = 6
      rw [List.length_take, List.length_drop]
      have hlen2 : rep.data.length = rep.length := rfl
      rw [min_eq_left (by omega)]
  · intro label ts1 ts2 hs1 hs2 hlen
    exact writeIdsFileName_inj label ts1 ts2 hs1 hs2 hlen

/-- Witness for C9 (amended): a concrete slug is non-empty and two names
differing only in the random suffix are distinct. -/
theorem c9_witness :
    slugify "группа" ≠ ""
    ∧ writeIdsFileName "06112025225301" "aaaaaa" "x"
        ≠ writeIdsFileName "06112025225301" "bbbbbb" "x" := by
  constructor
  · exact (c9_amended.1 "группа").1
  · intro h
    have h2 := (c9_amended.2.2.2.2.2 "x" "06112025225301" "06112025225301"
      "aaaaaa" "bbbbbb" rfl).mp h
    exact absurd h2.2 (by decide)

/-- An initial-segment match needs at least the pattern's length. -/
theorem startsWithCL_length : ∀ (pat l : List Char),
    startsWithCL pat l = true → pat.length ≤ l.length := by
  intro pat
  induction pat with
  | nil => intro l h; exact Nat.zero_le _
  | cons a as ih =>
    intro l h
    cases l with
    | nil => simp [startsWithCL] at h
    | cons b bs =>
      simp only [startsWithCL, Bool.and_eq_true] at h
      have := ih bs h.2
      simp only [List.length_cons]
      omega

/-- A substring occurrence needs at least the pattern's length. -/
theorem containsCL_length : ∀ (l pat : List Char),
    containsCL pat l = true → pat.length ≤ l.length := by
  intro l
  induction l with
  | nil => intro pat h; exact startsWithCL_length pat [] h
  | cons c rest ih =>
    intro pat h
    simp only [containsCL, Bool.or_eq_true] at h
    rcases h with h | h
    · exact startsWithCL_length pat _ h
    · have := ih pat h
      simp only [List.length_cons]
      omega

/-- `replace` with a pattern that does not occur returns the string unchanged. -/
theorem replFirst_not_contained : ∀ (l pat rep : List Char),
    containsCL pat l = false → replFirstCL pat rep l = l := by
  intro l
  induction l with
  | nil =>
    intro pat rep h
    cases pat with
    | nil => simp [containsCL, startsWithCL] at h
    | cons a as => simp [replFirstCL]
  | cons c rest ih =>
    intro pat rep h
    simp only [containsCL, Bool.or_eq_false_iff] at h
    simp only [replFirstCL, h.1, Bool.false_eq_true, if_false]
    rw [ih pat rep h.2]

/-- Replacing the first occurrence of a present pattern changes the length by
the difference of the lengths of replacement and pattern. -/
theorem replFirst_length_of_contained : ∀ (l pat rep : List Char),
    containsCL pat l = true →
    (replFirstCL pat rep l).length = l.length - pat.length + rep.length := by
  intro l
  induction l with
  | nil =>
    intro pat rep h
    cases pat with
    | nil => simp [replFirstCL]
    | cons a as => simp [containsCL, startsWithCL] at h
  | cons c rest ih =>
    intro pat rep h
    by_cases hsw : startsWithCL pat (c :: rest) = true
    · simp only [replFirstCL, hsw, if_true]
      rw [List.length_append, List.length_drop]
      have hle := startsWithCL_length pat _ hsw
      omega
    · have hco : containsCL pat rest = true := by
        simp only [containsCL, Bool.or_eq_true] at h
        rcases h with h1 | h2
        · exact absurd h1 hsw
        · exact h2
      simp only [replFirstCL, hsw, Bool.false_eq_true, if_false]
      rw [List.length_cons, ih pat rep hco]
      have := containsCL_length rest pat hco
      simp only [List.length_cons]
      omega

/-- C10: when `config.outputFile` does not contain the substring `.json`,
`saveResults`'s `replace('.json', '_ids.txt')` leaves the path unchanged, so the
JSON write and the subsequent plain-ID write target the same path (the second
overwrites the first); the two paths are distinct exactly when the output file
name contains `.json` — as with the default `bothunter_results.json`. -/
theorem c10_save_results_paths :
    (∀ cfg : Option String,
      (jsIncludes (saveResultsPaths cfg).1 ".json" = false →
        (saveResultsPaths cfg).2 = (saveResultsPaths cfg).1)
      ∧ (jsIncludes (saveResultsPaths cfg).1 ".json" = true →
        (saveResultsPaths cfg).2 ≠ (saveResultsPaths cfg).1))
    ∧ saveResultsPaths (some "results.txt") = ("results.txt", "results.txt")
    ∧ saveResultsPaths none = ("bothunter_results.json", "bothunter_results_ids.txt") := by
  refine ⟨?_, by decide, by decide⟩
  intro cfg
  constructor
  · intro h
    have he : (saveResultsPaths cfg).2
        = jsReplaceFirst (saveResultsPaths cfg).1 ".json" "_ids.txt" := rfl
    rw [he]
    exact strExt (replFirst_not_contained _ _ _ h)
  · intro h heq
    have hlen := congrArg String.length heq
    have h2 : (replFirstCL (".json" : String).data ("_ids.txt" : String).data
          (saveResultsPaths cfg).1.data).length
        = (saveResultsPaths cfg).1.data.length - (".json" : String).data.length
            + ("_ids.txt" : String).data.length :=
      replFirst_length_of_contained _ _ _ h
    have h3 := containsCL_length (saveResultsPaths cfg).1.data (".json" : String).data h
    have e1 : (".json" : String).data.length = 5 := rfl
    have e2 : ("_ids.txt" : String).data.length = 8 := rfl
    have hlen2 : (replFirstCL (".json" : String).data ("_ids.txt" : String).data
          (saveResultsPaths cfg).1.data).length
        = (saveResultsPaths cfg).1.data.length := hlen
    omega

/-- Witness for C10: a non-`.json` output file collapses both writes onto one
path, while the default output file keeps them distinct. -/
theorem c10_witness :
    (saveResultsPaths (some "results.txt")).2 = (saveResultsPaths (some "results.txt")).1
    ∧ (saveResultsPaths none).2 ≠ (saveResultsPaths none).1 := by
  constructor
  · exact ((c10_save_results_paths.1 (some "results.txt")).1 (by decide))
  · exact ((c10_save_results_paths.1 none).2 (by decide))
